import Mathlib

/-!
Shallow embedding of `src/ph_ai_tools/producthunt.py`: the payload-extraction
and ranking core of the Product Hunt scraping utility.

Modelling conventions:
* Python/JSON values are modelled by `PyVal`; a Python `dict` is a list of
  key/value pairs looked up first-match-first (CPython dicts have unique keys,
  so the two agree on every value `json.loads` can produce).
* `json.loads` and `html.unescape` are standard-library collaborators; they are
  passed in as abstract parameters (`decode`, `unescape`) of the payload
  locator, exactly as the spec treats them (interface boundary only).
* The network fetch is a collaborator as well; `scrape_top_ai_tools` receives
  the outcome a fetch would have had as an explicit `fetched` argument and uses
  it only when no `html` argument is supplied.
* CPython raises `TypeError` when an unhashable value (list/dict) is tested for
  set membership; the model instead compares `PyVal`s by structural equality.
  All concrete inputs used below keep identifiers hashable, so no statement
  relies on this difference.
* Python's `sorted` (a stable sort) is modelled by `List.insertionSort`, which
  is stable; the sort key in the source is injective on the sorted list, so any
  correct stable sort produces the same output.
-/

/-- A Python value as produced by `json.loads` (floats do not occur in any
statement below and are omitted from the model). -/
inductive PyVal where
  | none : PyVal
  | bool : Bool → PyVal
  | int : Int → PyVal
  | str : String → PyVal
  | list : List PyVal → PyVal
  | dict : List (String × PyVal) → PyVal

mutual

/-- Structural equality of modelled Python values (Python `==` on JSON data). -/
def pyBeq : PyVal → PyVal → Bool
  | .none, .none => true
  | .bool a, .bool b => a == b
  | .int a, .int b => a == b
  | .str a, .str b => a == b
  | .list xs, .list ys => pyBeqList xs ys
  | .dict xs, .dict ys => pyBeqFields xs ys
  | _, _ => false

def pyBeqList : List PyVal → List PyVal → Bool
  | [], [] => true
  | x :: xs, y :: ys => pyBeq x y && pyBeqList xs ys
  | _, _ => false

def pyBeqFields : List (String × PyVal) → List (String × PyVal) → Bool
  | [], [] => true
  | (k, v) :: xs, (k', v') :: ys => k == k' && pyBeq v v' && pyBeqFields xs ys
  | _, _ => false

end

theorem pyBeqList_iff (xs ys : List PyVal)
    (ih : ∀ x ∈ xs, ∀ b, pyBeq x b = true ↔ x = b) :
    pyBeqList xs ys = true ↔ xs = ys := by
  induction xs generalizing ys with
  | nil => cases ys <;> simp [pyBeqList]
  | cons x xs ihx =>
    cases ys with
    | nil => simp [pyBeqList]
    | cons y ys =>
      simp only [pyBeqList, Bool.and_eq_true, List.cons.injEq]
      rw [ih x (by simp), ihx ys (fun z hz => ih z (by simp [hz]))]

theorem pyBeqFields_iff (xs ys : List (String × PyVal))
    (ih : ∀ p ∈ xs, ∀ b, pyBeq p.2 b = true ↔ p.2 = b) :
    pyBeqFields xs ys = true ↔ xs = ys := by
  induction xs generalizing ys with
  | nil => cases ys <;> simp [pyBeqFields]
  | cons x xs ihx =>
    obtain ⟨k, v⟩ := x
    cases ys with
    | nil => simp [pyBeqFields]
    | cons y ys =>
      obtain ⟨k', v'⟩ := y
      simp only [pyBeqFields, Bool.and_eq_true, List.cons.injEq, Prod.mk.injEq, beq_iff_eq]
      rw [ih (k, v) (by simp), ihx ys (fun z hz => ih z (by simp [hz]))]

theorem pyBeq_iff : ∀ (a b : PyVal), pyBeq a b = true ↔ a = b
  | .none, b => by cases b <;> simp [pyBeq]
  | .bool x, b => by cases b <;> simp [pyBeq]
  | .int x, b => by cases b <;> simp [pyBeq]
  | .str x, b => by cases b <;> simp [pyBeq]
  | .list xs, b => by
    cases b <;> simp only [pyBeq, PyVal.list.injEq] <;> try simp
    exact pyBeqList_iff xs _ (fun x hx b => pyBeq_iff x b)
  | .dict xs, b => by
    cases b <;> simp only [pyBeq, PyVal.dict.injEq] <;> try simp
    exact pyBeqFields_iff xs _ (fun p hp b => pyBeq_iff p.2 b)
termination_by a => sizeOf a
decreasing_by
  · have := List.sizeOf_lt_of_mem hx
    simp only [PyVal.list.sizeOf_spec]
    omega
  · have h1 := List.sizeOf_lt_of_mem hp
    have h2 : sizeOf p.2 < sizeOf p := by
      obtain ⟨k, v⟩ := p
      simp only [Prod.mk.sizeOf_spec]
      omega
    simp only [PyVal.dict.sizeOf_spec]
    omega

instance : DecidableEq PyVal := fun a b => decidable_of_iff _ (pyBeq_iff a b)

/-- Python truthiness (`bool(v)`) for the modelled values. -/
def truthy : PyVal → Bool
  | .none => false
  | .bool b => b
  | .int n => n != 0
  | .str s => !s.isEmpty
  | .list xs => !xs.isEmpty
  | .dict fs => !fs.isEmpty

/-- `a or b` in Python: `a` when truthy, otherwise `b`. -/
def pyOr (a b : PyVal) : PyVal := if truthy a then a else b

/-- First-match dictionary lookup; models indexing a CPython dict. -/
def pyLookup (fields : List (String × PyVal)) (k : String) : Option PyVal :=
  match fields with
  | [] => Option.none
  | (k', v) :: rest => if k' = k then some v else pyLookup rest k

/-- `node.get(k)`: Python's `dict.get` returns `None` for a missing key. -/
def pyGet (fields : List (String × PyVal)) (k : String) : PyVal :=
  (pyLookup fields k).getD .none

/-- `k in node` for a Python dict. -/
def hasKey (fields : List (String × PyVal)) (k : String) : Bool :=
  (pyLookup fields k).isSome

theorem pyLookup_sizeOf_lt {fields : List (String × PyVal)} {k : String} {v : PyVal}
    (h : pyLookup fields k = some v) : sizeOf v < sizeOf fields := by
  induction fields with
  | nil => simp [pyLookup] at h
  | cons p rest ih =>
    obtain ⟨k', v'⟩ := p
    simp only [pyLookup] at h
    split at h
    · cases h
      simp
      omega
    · have := ih h
      simp
      omega

theorem pyLookup_sizeOf_lt_dict {fields : List (String × PyVal)} {k : String} {v : PyVal}
    (h : pyLookup fields k = some v) : sizeOf v < sizeOf (PyVal.dict fields) := by
  have := pyLookup_sizeOf_lt h
  simp
  omega

/-- Auxiliary scan for `str.find`: first index at or after `i` where `pat`
occurs in `text`. -/
def findAt (pat : List Char) : List Char → Nat → Option Nat
  | text, i =>
    if pat.isPrefixOf text then some i
    else
      match text with
      | [] => Option.none
      | _ :: rest => findAt pat rest (i + 1)

/-- Python's `text.find(pat, start)` (index of first occurrence, or failure
instead of `-1`). -/
def pyFind (text pat : List Char) (start : Nat) : Option Nat :=
  (findAt pat (text.drop start) 0).map (· + start)

/-- Python's `pat in text` substring test on strings. -/
def strContains (text pat : String) : Bool :=
  (findAt pat.data text.data 0).isSome

/-- Quoting of a string inside a container `repr` (CPython additionally
escapes quotes and non-printable characters; abbreviated here, and no
statement below evaluates `str` on a container). -/
def pyQuote (s : String) : String :=
  (Char.ofNat 39).toString ++ s ++ (Char.ofNat 39).toString

/-- Python `repr(v)`, used by `str` on containers. -/
def pyRepr : PyVal → String
  | .none => "None"
  | .bool b => if b then "True" else "False"
  | .int n => toString n
  | .str s => pyQuote s
  | .list xs =>
    "[" ++ String.intercalate ", " (xs.attach.map (fun x => pyRepr x.1)) ++ "]"
  | .dict fs =>
    (Char.ofNat 123).toString
      ++ String.intercalate ", "
        (fs.attach.map (fun p => pyQuote p.1.1 ++ ": " ++ pyRepr p.1.2))
      ++ (Char.ofNat 125).toString
termination_by v => sizeOf v
decreasing_by
  · have := List.sizeOf_lt_of_mem x.2
    simp only [PyVal.list.sizeOf_spec]
    omega
  · have h1 := List.sizeOf_lt_of_mem p.2
    have h2 : sizeOf p.1.2 < sizeOf p.1 := by
      obtain ⟨⟨k, v⟩, hp⟩ := p
      simp only [Prod.mk.sizeOf_spec]
      omega
    simp only [PyVal.dict.sizeOf_spec]
    omega

/-- Python `str(v)`: identity on strings, `repr` otherwise. -/
def pyStr : PyVal → String
  | .str s => s
  | v => pyRepr v

/-- Python `str.strip()` with no argument: remove leading and trailing
whitespace (CPython strips all Unicode whitespace; `Char.isWhitespace` covers
the ASCII ones, which is all any statement below exercises). -/
def trimChars (cs : List Char) : List Char :=
  ((cs.dropWhile Char.isWhitespace).reverse.dropWhile Char.isWhitespace).reverse

/-- `s.strip()` on a Lean string. -/
def pyStrip (s : String) : String := String.mk (trimChars s.data)

/-- Digits of a decimal literal, or failure when a non-digit appears. -/
def digitsToNat (cs : List Char) : Option Nat :=
  if cs ≠ [] ∧ cs.all Char.isDigit then
    some (cs.foldl (fun acc c => acc * 10 + (c.toNat - 48)) 0)
  else
    Option.none

/-- Python `int(s)` on a string: surrounding whitespace is stripped, an
optional sign is allowed, and the rest must be decimal digits (CPython also
allows underscores between digits and non-ASCII digits; those inputs simply
fail here, and no statement below depends on them). -/
def parsePyInt (s : String) : Option Int :=
  match trimChars s.data with
  | [] => Option.none
  | c :: rest =>
    if c = '-' then (digitsToNat rest).map (fun n => -(n : Int))
    else if c = '+' then (digitsToNat rest).map (fun n => (n : Int))
    else (digitsToNat (c :: rest)).map (fun n => (n : Int))

/-- Python `int(v)`: identity on ints, `True`/`False` become `1`/`0`, strings
are parsed, and every other value raises (`TypeError`), modelled as failure. -/
def pyToInt : PyVal → Option Int
  | .int n => some n
  | .bool b => some (if b then 1 else 0)
  | .str s => parsePyInt s
  | _ => Option.none

/-- The `AiTool` dataclass.  `external_url` and `product_hunt_url` hold
whatever value the extraction chain produced (CPython does not enforce the
`str` annotations); Python `None` is `PyVal.none`. -/
structure AiTool where
  name : String
  tagline : String
  makers : List String
  product_hunt_url : PyVal
  external_url : PyVal
  votes_count : Option Int
deriving DecidableEq

/-- `AiTool.to_dict`: the JSON-serialisable representation.  The two optional
fields are appended only under the source's conditions: `external_url` when
truthy, `votes_count` when not `None`. -/
def AiTool.to_dict (t : AiTool) : List (String × PyVal) :=
  [("name", .str t.name),
   ("tagline", .str t.tagline),
   ("makers", .list (t.makers.map PyVal.str)),
   ("product_hunt_url", t.product_hunt_url)]
  ++ (if truthy t.external_url then [("external_url", t.external_url)] else [])
  ++ (match t.votes_count with
      | some n => [("votes_count", PyVal.int n)]
      | Option.none => [])

/-- `_extract_votes`: vote-count resolution.  Note the Python `or`: a falsy
`votesCount` (including the integer `0`) falls through to `votes`. -/
def extract_votes (fields : List (String × PyVal)) : Option Int :=
  let raw := pyOr (pyGet fields "votesCount") (pyGet fields "votes")
  let raw := match raw with
    | .dict d => pyGet d "count"
    | v => v
  match raw with
  | .none => Option.none
  | v => pyToInt v

/-- `isinstance(v, (dict, list))`. -/
def isContainer : PyVal → Bool
  | .dict _ => true
  | .list _ => true
  | _ => false

/-- The `"node"` entry of a connection edge: present exactly when the edge is
a dict carrying the key (`isinstance(edge, dict) and "node" in edge`). -/
def edgeNode : PyVal → Option PyVal
  | .dict ed => pyLookup ed "node"
  | _ => Option.none

theorem edgeNode_sizeOf_lt {e nv : PyVal} (h : edgeNode e = some nv) :
    sizeOf nv < sizeOf e := by
  cases e <;> simp only [edgeNode] at h
  case dict ed =>
    have := pyLookup_sizeOf_lt h
    simp only [PyVal.dict.sizeOf_spec]
    omega
  all_goals cases h

/-- `_normalise_people`: flatten a person / list-of-persons / connection-style
wrapper into display names.  The candidate sub-collections are visited in the
source's order: the display-name field, then `nodes`, `edges` (with the inner
`node` indirection when an edge is a dict carrying one), `profiles`, `items`,
`collection`, `members`, then a top-level `node` (only when dict or list),
`user` and `users`. -/
def normalise_people : PyVal → List String
  | .list xs => (xs.attach.map (fun x => normalise_people x.1)).flatten
  | .dict fs =>
    let fromName :=
      if hasKey fs "displayName" || hasKey fs "name" then
        let dn := pyOr (pyGet fs "displayName") (pyGet fs "name")
        if truthy dn then [pyStr dn] else []
      else []
    let cNodes :=
      match h : pyLookup fs "nodes" with
      | some v => normalise_people v
      | Option.none => []
    let cEdges :=
      match h : pyLookup fs "edges" with
      | some (.list edges) =>
        (edges.attach.map (fun e =>
          match h2 : edgeNode e.1 with
          | some nv => normalise_people nv
          | Option.none => normalise_people e.1)).flatten
      | some v => normalise_people v
      | Option.none => []
    let cProfiles :=
      match h : pyLookup fs "profiles" with
      | some v => normalise_people v
      | Option.none => []
    let cItems :=
      match h : pyLookup fs "items" with
      | some v => normalise_people v
      | Option.none => []
    let cCollection :=
      match h : pyLookup fs "collection" with
      | some v => normalise_people v
      | Option.none => []
    let cMembers :=
      match h : pyLookup fs "members" with
      | some v => normalise_people v
      | Option.none => []
    let cNode :=
      match h : pyLookup fs "node" with
      | some v => if isContainer v then normalise_people v else []
      | Option.none => []
    let cUser :=
      match h : pyLookup fs "user" with
      | some v => normalise_people v
      | Option.none => []
    let cUsers :=
      match h : pyLookup fs "users" with
      | some v => normalise_people v
      | Option.none => []
    fromName ++ cNodes ++ cEdges ++ cProfiles ++ cItems ++ cCollection
      ++ cMembers ++ cNode ++ cUser ++ cUsers
  | _ => []
termination_by v => sizeOf v
decreasing_by
all_goals
  first
  | exact pyLookup_sizeOf_lt_dict h
  | (have h0 := List.sizeOf_lt_of_mem x.2
     simp only [PyVal.list.sizeOf_spec]
     omega)
  | (have h3 := edgeNode_sizeOf_lt h2
     have h4 := List.sizeOf_lt_of_mem e.2
     have h5 := pyLookup_sizeOf_lt_dict h
     simp only [PyVal.list.sizeOf_spec] at h5
     omega)
  | (have h4 := List.sizeOf_lt_of_mem e.2
     have h5 := pyLookup_sizeOf_lt_dict h
     simp only [PyVal.list.sizeOf_spec] at h5
     omega)

/-- Worker for `_deduplicate`: the `seen` set and the growing `result`. -/
def dedupGo (seen result : List String) : List String → List String
  | [] => result
  | item :: rest =>
    if item.isEmpty then dedupGo seen result rest
    else if item ∈ seen then dedupGo seen result rest
    else dedupGo (item :: seen) (result ++ [item]) rest

/-- `_deduplicate`: drop falsy (empty) strings and duplicates, keeping the
first occurrence of each remaining value in order. -/
def deduplicate (values : List String) : List String :=
  dedupGo [] [] values

/-- The candidate maker fields, in the source's order. -/
def makerCandidateKeys : List String :=
  ["makers", "makersPreview", "makersConnection", "primaryMaker",
   "primaryMakers", "maker", "team", "teamMembers"]

/-- `_extract_maker_names`: names from every candidate field present on the
node, concatenated in key order, then deduplicated. -/
def extract_maker_names (fields : List (String × PyVal)) : List String :=
  deduplicate
    ((makerCandidateKeys.map (fun k =>
      if hasKey fields k then normalise_people (pyGet fields k) else [])).flatten)

/-- The Product Hunt base URL. -/
def PRODUCT_HUNT_BASE_URL : String := "https://www.producthunt.com"

/-- `_build_tool`: assemble an `AiTool` from a node (the source annotates the
return as optional but produces a tool on every path). -/
def build_tool (fields : List (String × PyVal)) (slug : PyVal) (name : String) :
    Option AiTool :=
  let tagline := pyOr (pyOr (pyGet fields "tagline") (pyGet fields "description")) (.str "")
  let taglineS := pyStrip (pyStr tagline)
  let makers := extract_maker_names fields
  let product_hunt_url :=
    pyOr (pyGet fields "profileUrl")
      (.str (PRODUCT_HUNT_BASE_URL ++ "/posts/" ++ pyStr slug))
  let external_url :=
    pyOr (pyOr (pyOr (pyGet fields "websiteUrl") (pyGet fields "website"))
      (pyGet fields "redirectUrl")) (pyGet fields "url")
  let external_url :=
    if !truthy external_url then
      match pyGet fields "urls" with
      | .dict d => pyGet d "website"
      | _ => external_url
    else external_url
  let votes_count := extract_votes fields
  some
    { name := pyStrip name
      tagline := taglineS
      makers := makers
      product_hunt_url := product_hunt_url
      external_url := external_url
      votes_count := votes_count }

/-- Structural size of a modelled value (used as the traversal measure; the
auto-generated `sizeOf` of a nested inductive has no executable code). -/
def pySize : PyVal → Nat
  | .list xs => 1 + (xs.attach.map (fun x => pySize x.1)).sum
  | .dict fs => 1 + (fs.attach.map (fun p => pySize p.1.2)).sum
  | _ => 1
termination_by v => sizeOf v
decreasing_by
  · have := List.sizeOf_lt_of_mem x.2
    simp only [PyVal.list.sizeOf_spec]
    omega
  · have h1 := List.sizeOf_lt_of_mem p.2
    have h2 : sizeOf p.1.2 < sizeOf p.1 := by
      obtain ⟨⟨k, v⟩, hp⟩ := p
      simp only [Prod.mk.sizeOf_spec]
      omega
    simp only [PyVal.dict.sizeOf_spec]
    omega

/-- Total size of a traversal work-list. -/
def stackSize : List PyVal → Nat
  | [] => 0
  | v :: rest => pySize v + stackSize rest

theorem stackSize_eq_sum_map (l : List PyVal) : stackSize l = (l.map pySize).sum := by
  induction l with
  | nil => rfl
  | cons x xs ih => simp [stackSize, ih]

theorem stackSize_append (l r : List PyVal) :
    stackSize (l ++ r) = stackSize l + stackSize r := by
  induction l with
  | nil => simp [stackSize]
  | cons x xs ih => simp [stackSize, ih]; omega

theorem stackSize_reverse (l : List PyVal) : stackSize l.reverse = stackSize l := by
  simp [stackSize_eq_sum_map, List.sum_reverse]

theorem pySize_list (xs : List PyVal) : pySize (.list xs) = 1 + stackSize xs := by
  rw [pySize, List.attach_map_val xs pySize, stackSize_eq_sum_map]

theorem pySize_dict (fs : List (String × PyVal)) :
    pySize (.dict fs) = 1 + stackSize (fs.map Prod.snd) := by
  rw [pySize, List.attach_map_val fs (fun p => pySize p.2), stackSize_eq_sum_map,
    List.map_map]
  rfl

theorem one_le_pySize (v : PyVal) : 1 ≤ pySize v := by
  cases v <;> simp [pySize, pySize_list, pySize_dict]

/-- `_iter_nodes`: explicit-stack depth-first traversal.  The Python generator
pops from the end of its list and extends it with a dict's values (or a list's
elements) in order, so the stack is modelled head-as-top and pushed values are
reversed.  Every dict is yielded, in pop order. -/
def iter_nodes_go : List PyVal → List PyVal
  | [] => []
  | current :: rest =>
    match current with
    | .dict fs => .dict fs :: iter_nodes_go ((fs.map Prod.snd).reverse ++ rest)
    | .list xs => iter_nodes_go (xs.reverse ++ rest)
    | v => iter_nodes_go rest
termination_by stack => stackSize stack
decreasing_by
  · simp only [stackSize, stackSize_append, stackSize_reverse, pySize_dict]
    omega
  · simp only [stackSize, stackSize_append, stackSize_reverse, pySize_list]
    omega
  · rename_i w
    have h1 := one_le_pySize w
    simp only [stackSize]
    omega

/-- `_iter_nodes(payload)`. -/
def iter_nodes (payload : PyVal) : List PyVal := iter_nodes_go [payload]

/-- The loop state of `_extract_tools`.  `candidates` additionally records the
slug each accepted tool was deduplicated under (ghost information: the source
keeps slugs only in `seen_slugs`, and `Prod.snd` of each entry is exactly the
source's `(order, tool)` pair). -/
structure ExtractState where
  candidates : List (PyVal × Nat × AiTool)
  seen : List PyVal
  counter : Nat
deriving DecidableEq

/-- One iteration of the `_extract_tools` loop body on a traversed node. -/
def extract_step (st : ExtractState) (node : PyVal) : ExtractState :=
  match node with
  | .dict fields =>
    match pyGet fields "__typename" with
    | .str typename =>
      if !strContains typename "Post" && !strContains typename "Product" then st
      else
        let slug := pyGet fields "slug"
        let name := pyOr (pyGet fields "name") (pyGet fields "title")
        if !truthy slug || !truthy name then st
        else if slug ∈ st.seen then st
        else
          match build_tool fields slug (pyStr name) with
          | some tool =>
            { candidates := st.candidates ++ [(slug, st.counter, tool)]
              seen := slug :: st.seen
              counter := st.counter + 1 }
          | Option.none => st
    | _ => st
  | _ => st

/-- The initial `_extract_tools` state: no candidates, no seen slugs, order 0. -/
def initExtractState : ExtractState := ⟨[], [], 0⟩

/-- `_extract_tools`, slug-tagged (see `ExtractState.candidates`). -/
def extract_tools_tagged (payload : PyVal) : List (PyVal × Nat × AiTool) :=
  ((iter_nodes payload).foldl extract_step initExtractState).candidates

/-- `_extract_tools`: the discovery-indexed candidate list. -/
def extract_tools (payload : PyVal) : List (Nat × AiTool) :=
  (extract_tools_tagged payload).map Prod.snd

/-- The failure kinds of the core.  The source raises a single
`ProductHuntScrapeError` class; the constructors here model its four distinct
messages plus fetch-layer failures, matching the spec's error taxonomy. -/
inductive ScrapeError where
  | payloadNotFound : ScrapeError
  | malformedPayload : ScrapeError
  | payloadDecodeError : ScrapeError
  | noListingsFound : ScrapeError
  | transportFailure : ScrapeError
deriving DecidableEq

/-- The opening marker of the embedded payload. -/
def NEXT_DATA_START : List Char :=
  "<script id=\"__NEXT_DATA__\" type=\"application/json\">".data

/-- The closing marker of the embedded payload. -/
def NEXT_DATA_END : List Char := "</script>".data

/-- `_extract_next_data`: locate the delimited blob, un-escape it, decode it.
`unescape` models `html.unescape` and `decode` models `json.loads` (failure =
`json.JSONDecodeError`); both are standard-library collaborators. -/
def extract_next_data (unescape : List Char → List Char)
    (decode : List Char → Option PyVal) (page : List Char) :
    Except ScrapeError PyVal :=
  match pyFind page NEXT_DATA_START 0 with
  | Option.none => .error .payloadNotFound
  | some idx =>
    let start := idx + NEXT_DATA_START.length
    match pyFind page NEXT_DATA_END start with
    | Option.none => .error .malformedPayload
    | some endIdx =>
      let blob := unescape ((page.drop start).take (endIdx - start))
      match decode blob with
      | Option.none => .error .payloadDecodeError
      | some payload => .ok payload

/-- The primary sort key: `item[1].votes_count or 0` (Python `or` maps both
`None` and `0` to `0`, which coincides with `Option.getD 0`). -/
def votesOf (t : AiTool) : Int := t.votes_count.getD 0

/-- The `sorted` comparison of `scrape_top_ai_tools`: the key tuple
`(-(votes or 0), discovery index)` compared lexicographically. -/
def toolLe (p q : Nat × AiTool) : Prop :=
  votesOf q.2 < votesOf p.2 ∨ (votesOf p.2 = votesOf q.2 ∧ p.1 ≤ q.1)

instance : DecidableRel toolLe := fun p q => by unfold toolLe; exact inferInstance

instance : IsTotal (Nat × AiTool) toolLe :=
  ⟨by intro a b; unfold toolLe; omega⟩

instance : IsTrans (Nat × AiTool) toolLe :=
  ⟨by intro a b c; unfold toolLe; omega⟩

/-- `toolLe` lifted to slug-tagged candidates (the slug is ignored, exactly as
the source's key function ignores everything but votes and index). -/
def tagLe (p q : PyVal × Nat × AiTool) : Prop := toolLe p.2 q.2

instance : DecidableRel tagLe := fun p q => by unfold tagLe; exact inferInstance

instance : IsTotal (PyVal × Nat × AiTool) tagLe :=
  ⟨by intro a b; exact @IsTotal.total _ toolLe _ a.2 b.2⟩

instance : IsTrans (PyVal × Nat × AiTool) tagLe :=
  ⟨by intro a b c h1 h2; exact @IsTrans.trans _ toolLe _ a.2 b.2 c.2 h1 h2⟩

/-- `scrape_top_ai_tools`.  `html` is the optional pre-fetched markup;
`fetched` is the outcome the Page Fetcher collaborator would produce (the
source's `fetch_topic_page(topic_slug, timeout)` call), consulted only when
`html` is absent.  Python's stable `sorted` is modelled by `insertionSort`
(see the header note), and `ordered[:limit]` by `take` (equal on the
positive limits that reach it). -/
def scrape_top_ai_tools (unescape : List Char → List Char)
    (decode : List Char → Option PyVal) (limit : Int)
    (html : Option (List Char)) (fetched : Except ScrapeError (List Char)) :
    Except ScrapeError (List AiTool) :=
  if limit ≤ 0 then .ok []
  else
    match (match html with | some h => Except.ok h | Option.none => fetched) with
    | .error e => .error e
    | .ok page =>
      match extract_next_data unescape decode page with
      | .error e => .error e
      | .ok payload =>
        let indexed := extract_tools payload
        if indexed = [] then .error .noListingsFound
        else .ok (((indexed.insertionSort toolLe).take limit.toNat).map Prod.snd)

mutual

/-- The traversal sequence of a single value: a dict is yielded and then its
values are traversed last-value-first (the pop order of the source's stack),
a list's elements are traversed last-element-first, scalars yield nothing.
Structurally recursive, so it evaluates by kernel reduction; the theorem
`iter_nodes_eq_nodesOf` proves it equal to the work-list translation
`iter_nodes`. -/
def nodesOf : PyVal → List PyVal
  | .dict fs => .dict fs :: nodesOfFields fs
  | .list xs => nodesOfElems xs
  | _ => []

/-- Traversal of list elements in reverse (stack pop) order. -/
def nodesOfElems : List PyVal → List PyVal
  | [] => []
  | x :: xs => nodesOfElems xs ++ nodesOf x

/-- Traversal of dict values in reverse (stack pop) order. -/
def nodesOfFields : List (String × PyVal) → List PyVal
  | [] => []
  | (_, v) :: fs => nodesOfFields fs ++ nodesOf v

end

theorem nodesOfElems_eq (xs : List PyVal) :
    nodesOfElems xs = (xs.reverse.map nodesOf).flatten := by
  induction xs with
  | nil => rfl
  | cons x rest ih => simp [nodesOfElems, ih]

theorem nodesOfFields_eq (fs : List (String × PyVal)) :
    nodesOfFields fs = ((fs.map Prod.snd).reverse.map nodesOf).flatten := by
  induction fs with
  | nil => rfl
  | cons p rest ih =>
    obtain ⟨k, v⟩ := p
    simp [nodesOfFields, ih]

theorem iter_nodes_go_eq (stack : List PyVal) :
    iter_nodes_go stack = (stack.map nodesOf).flatten := by
  induction stack using iter_nodes_go.induct with
  | case1 => simp [iter_nodes_go]
  | case2 fs rest ih =>
    rw [iter_nodes_go, ih]
    simp [nodesOf, nodesOfFields_eq]
  | case3 xs rest ih =>
    rw [iter_nodes_go, ih]
    simp [nodesOf, nodesOfElems_eq]
  | case4 v rest hd hl ih =>
    cases v with
    | dict fs => exact (hd fs rfl).elim
    | list xs => exact (hl xs rfl).elim
    | none => simp [iter_nodes_go, nodesOf, ih]
    | bool b => simp [iter_nodes_go, nodesOf, ih]
    | int n => simp [iter_nodes_go, nodesOf, ih]
    | str s => simp [iter_nodes_go, nodesOf, ih]

theorem iter_nodes_eq_nodesOf (payload : PyVal) :
    iter_nodes payload = nodesOf payload := by
  rw [iter_nodes, iter_nodes_go_eq]
  simp

/-- `extract_tools` with the traversal in its kernel-evaluable form; used to
discharge hypotheses of concrete witnesses. -/
theorem extract_tools_eval (payload : PyVal) :
    extract_tools payload
      = (((nodesOf payload).foldl extract_step initExtractState).candidates.map
          Prod.snd) := by
  rw [extract_tools, extract_tools_tagged, iter_nodes_eq_nodesOf]

instance {e a : Type} [DecidableEq e] [DecidableEq a] : DecidableEq (Except e a)
  | .error x, .error y =>
    if h : x = y then .isTrue (by rw [h])
    else .isFalse (fun hh => by cases hh; exact h rfl)
  | .ok x, .ok y =>
    if h : x = y then .isTrue (by rw [h])
    else .isFalse (fun hh => by cases hh; exact h rfl)
  | .error _, .ok _ => .isFalse (fun hh => by cases hh)
  | .ok _, .error _ => .isFalse (fun hh => by cases hh)

/-- The strict version of `toolLe`: strictly greater votes, or equal votes and
strictly earlier discovery index. -/
def toolLt (p q : Nat × AiTool) : Prop :=
  votesOf q.2 < votesOf p.2 ∨ (votesOf p.2 = votesOf q.2 ∧ p.1 < q.1)

/-- Loop invariant of `_extract_tools`: the counter counts the accepted
candidates, discovery indices are `0, 1, 2, …` in acceptance order, every
accepted slug has been recorded as seen, and no slug is accepted twice. -/
def stateInv (st : ExtractState) : Prop :=
  st.counter = st.candidates.length
  ∧ st.candidates.map (fun c => c.2.1) = List.range st.counter
  ∧ (∀ c ∈ st.candidates, c.1 ∈ st.seen)
  ∧ (st.candidates.map Prod.fst).Nodup

/-- The acceptance test of the Entity Builder, read off the spec: a type tag
that is a string containing a recognized category token, a truthy (non-empty)
identifier, and a truthy name-or-title. -/
def listingAcceptB (fields : List (String × PyVal)) : Bool :=
  (match pyGet fields "__typename" with
   | .str ty => strContains ty "Post" || strContains ty "Product"
   | _ => false)
  && truthy (pyGet fields "slug")
  && truthy (pyOr (pyGet fields "name") (pyGet fields "title"))

/-- The amended `popularityScore` resolution, read off the (corrected) spec
sentence: the votes-like field is `votesCount` when truthy, else `votes`
(a falsy `votesCount`, including `0`, falls through); a nested mapping is
replaced by its `count` entry; a `None` selection or a coercion failure
yields no score. -/
def votesResolutionSpec (fields : List (String × PyVal)) : Option Int :=
  let chosen :=
    if truthy (pyGet fields "votesCount") then pyGet fields "votesCount"
    else pyGet fields "votes"
  let chosen :=
    match chosen with
    | .dict d => pyGet d "count"
    | v => v
  match chosen with
  | .none => Option.none
  | v => pyToInt v

/-- The distinct non-empty values of a list in order of first occurrence. -/
def firstSeen : List String → List String
  | [] => []
  | x :: xs => x :: firstSeen (xs.filter (· != x))
termination_by l => l.length
decreasing_by
  simp only [List.length_cons]
  exact Nat.lt_succ_of_le (List.length_filter_le _ _)

/-- A listing node used by concrete witnesses. -/
def samplePostA : List (String × PyVal) :=
  [("__typename", .str "Post"), ("slug", .str "alpha"),
   ("name", .str "Alpha"), ("votesCount", .int 10)]

/-- A second listing node with more votes. -/
def samplePostB : List (String × PyVal) :=
  [("__typename", .str "Post"), ("slug", .str "beta"),
   ("name", .str "Beta"), ("votesCount", .int 25)]

/-- A decoded payload holding the two sample listings. -/
def samplePayload : PyVal :=
  .dict [("props", .list [.dict samplePostA, .dict samplePostB])]

/-- A decoder (model of `json.loads`) producing the sample payload. -/
def sampleDecode : List Char → Option PyVal := fun _ => some samplePayload

/-- A decoder producing an empty payload (no listing nodes at all). -/
def emptyDecode : List Char → Option PyVal := fun _ => some (PyVal.dict [])

/-- Markup consisting of the two payload markers and nothing else. -/
def samplePage : List Char := NEXT_DATA_START ++ NEXT_DATA_END

/-- The listings the scraper returns on the sample inputs: the two sample
posts ordered by descending votes (discovery visits the later list element
first, so `beta` has discovery index 0). -/
def sampleScrapeResult : List AiTool :=
  [{ name := "Beta", tagline := "", makers := []
     product_hunt_url := .str "https://www.producthunt.com/posts/beta"
     external_url := .none, votes_count := some 25 },
   { name := "Alpha", tagline := "", makers := []
     product_hunt_url := .str "https://www.producthunt.com/posts/alpha"
     external_url := .none, votes_count := some 10 }]

/-- C4: for every non-positive `limit`, with or without pre-fetched markup and
whatever the fetch collaborator or decoder would do (both are universally
quantified, so neither can influence the result), `scrape_top_ai_tools`
returns the empty sequence without an error. -/
theorem scrape_nonpositive_limit_returns_empty
    (unescape : List Char → List Char) (decode : List Char → Option PyVal)
    (limit : Int) (html : Option (List Char))
    (fetched : Except ScrapeError (List Char)) (h : limit ≤ 0) :
    scrape_top_ai_tools unescape decode limit html fetched = .ok [] := by
  unfold scrape_top_ai_tools
  simp [h]

theorem scrape_nonpositive_limit_returns_empty_witness :
    (0 : Int) ≤ 0
      ∧ scrape_top_ai_tools id (fun _ => Option.none) 0 Option.none
          (Except.error .transportFailure) = .ok [] :=
  ⟨by decide,
   scrape_nonpositive_limit_returns_empty id (fun _ => Option.none) 0 Option.none
     (Except.error .transportFailure) (by decide)⟩

/-- C10: in `to_dict` the two optional fields are tested asymmetrically:
`external_url` is serialized exactly when truthy (so a present empty string is
dropped), while `votes_count` is serialized exactly when not `None` (so a
count of `0` is preserved). -/
theorem to_dict_optional_field_asymmetry (t : AiTool) :
    pyLookup t.to_dict "external_url"
        = (if truthy t.external_url then some t.external_url else Option.none)
      ∧ pyLookup t.to_dict "votes_count"
        = (match t.votes_count with
           | some n => some (PyVal.int n)
           | Option.none => Option.none)
      ∧ pyLookup (AiTool.to_dict { t with external_url := .str "" }) "external_url"
        = Option.none
      ∧ pyLookup (AiTool.to_dict { t with votes_count := some 0 }) "votes_count"
        = some (PyVal.int 0) := by
  refine ⟨?_, ?_, ?_, ?_⟩
  · by_cases hx : truthy t.external_url = true <;>
      cases hv : t.votes_count <;> simp [AiTool.to_dict, pyLookup, hx, hv]
  · by_cases hx : truthy t.external_url = true <;>
      cases hv : t.votes_count <;> simp [AiTool.to_dict, pyLookup, hx, hv]
  · cases hv : t.votes_count <;> simp [AiTool.to_dict, pyLookup, truthy, hv]
  · by_cases hx : truthy t.external_url = true <;>
      simp [AiTool.to_dict, pyLookup, hx]

/-- C9 fails as stated: a present (non-`None`) but empty-string
`external_url` is silently dropped by serialization, so reading the
serialized structure back does not reproduce this present field. -/
theorem to_dict_roundtrip_counterexample :
    (AiTool.mk "A" "" [] (.str "u") (.str "") Option.none).external_url ≠ PyVal.none
      ∧ pyLookup
          (AiTool.to_dict (AiTool.mk "A" "" [] (.str "u") (.str "") Option.none))
          "external_url"
        = Option.none := by
  decide

/-- C9 amended: serialization followed by key lookup reproduces every present
field exactly and absent optional fields do not appear at all — provided the
record's `external_url` is either absent (`None`) or truthy; a present falsy
`external_url` (the counterexample) is the one value that is dropped. -/
theorem to_dict_roundtrip_amended (t : AiTool)
    (h : t.external_url = PyVal.none ∨ truthy t.external_url = true) :
    pyLookup t.to_dict "name" = some (.str t.name)
  ∧ pyLookup t.to_dict "tagline" = some (.str t.tagline)
  ∧ pyLookup t.to_dict "makers" = some (.list (t.makers.map PyVal.str))
  ∧ pyLookup t.to_dict "product_hunt_url" = some t.product_hunt_url
  ∧ (t.external_url = PyVal.none → pyLookup t.to_dict "external_url" = Option.none)
  ∧ (t.external_url ≠ PyVal.none → pyLookup t.to_dict "external_url" = some t.external_url)
  ∧ (t.votes_count = Option.none → pyLookup t.to_dict "votes_count" = Option.none)
  ∧ (∀ n, t.votes_count = some n → pyLookup t.to_dict "votes_count" = some (PyVal.int n)) := by
  rcases h with h | h
  · cases hv : t.votes_count <;>
      simp [AiTool.to_dict, pyLookup, h, hv, truthy]
  · have hne : t.external_url ≠ PyVal.none := by
      intro hh
      rw [hh] at h
      simp [truthy] at h
    cases hv : t.votes_count <;>
      simp [AiTool.to_dict, pyLookup, h, hv, hne]

theorem to_dict_roundtrip_amended_witness :
    ((AiTool.mk "S" "t" ["M"] (.str "u") (.str "https://e.com") (some 3)).external_url
        = PyVal.none
      ∨ truthy (AiTool.mk "S" "t" ["M"] (.str "u") (.str "https://e.com") (some 3)).external_url
        = true)
    ∧ (pyLookup (AiTool.to_dict (AiTool.mk "S" "t" ["M"] (.str "u") (.str "https://e.com") (some 3))) "name"
        = some (.str (AiTool.mk "S" "t" ["M"] (.str "u") (.str "https://e.com") (some 3)).name)
      ∧ pyLookup (AiTool.to_dict (AiTool.mk "S" "t" ["M"] (.str "u") (.str "https://e.com") (some 3))) "tagline"
        = some (.str (AiTool.mk "S" "t" ["M"] (.str "u") (.str "https://e.com") (some 3)).tagline)
      ∧ pyLookup (AiTool.to_dict (AiTool.mk "S" "t" ["M"] (.str "u") (.str "https://e.com") (some 3))) "makers"
        = some (.list ((AiTool.mk "S" "t" ["M"] (.str "u") (.str "https://e.com") (some 3)).makers.map PyVal.str))
      ∧ pyLookup (AiTool.to_dict (AiTool.mk "S" "t" ["M"] (.str "u") (.str "https://e.com") (some 3))) "product_hunt_url"
        = some (AiTool.mk "S" "t" ["M"] (.str "u") (.str "https://e.com") (some 3)).product_hunt_url
      ∧ ((AiTool.mk "S" "t" ["M"] (.str "u") (.str "https://e.com") (some 3)).external_url = PyVal.none
          → pyLookup (AiTool.to_dict (AiTool.mk "S" "t" ["M"] (.str "u") (.str "https://e.com") (some 3))) "external_url" = Option.none)
      ∧ ((AiTool.mk "S" "t" ["M"] (.str "u") (.str "https://e.com") (some 3)).external_url ≠ PyVal.none
          → pyLookup (AiTool.to_dict (AiTool.mk "S" "t" ["M"] (.str "u") (.str "https://e.com") (some 3))) "external_url"
            = some (AiTool.mk "S" "t" ["M"] (.str "u") (.str "https://e.com") (some 3)).external_url)
      ∧ ((AiTool.mk "S" "t" ["M"] (.str "u") (.str "https://e.com") (some 3)).votes_count = Option.none
          → pyLookup (AiTool.to_dict (AiTool.mk "S" "t" ["M"] (.str "u") (.str "https://e.com") (some 3))) "votes_count" = Option.none)
      ∧ (∀ n, (AiTool.mk "S" "t" ["M"] (.str "u") (.str "https://e.com") (some 3)).votes_count = some n
          → pyLookup (AiTool.to_dict (AiTool.mk "S" "t" ["M"] (.str "u") (.str "https://e.com") (some 3))) "votes_count"
            = some (PyVal.int n))) :=
  ⟨by decide,
   to_dict_roundtrip_amended (AiTool.mk "S" "t" ["M"] (.str "u") (.str "https://e.com") (some 3))
     (by decide)⟩

/-- C2 fails as stated: a node whose votes-like field `votesCount` holds the
number `0` does not receive a present score of `0` — the Python `or` chain
treats the falsy `0` like an absence and falls through to the missing `votes`
field, yielding no score at all. -/
theorem extract_votes_zero_counterexample :
    extract_votes [("votesCount", PyVal.int 0)] = Option.none
      ∧ extract_votes [("votesCount", PyVal.int 0)] ≠ some 0 := by
  decide

/-- C2 amended: the votes-like field is `votesCount` only when truthy,
otherwise `votes` (so a `votesCount` of `0` falls through); a nested mapping
contributes its `count` entry; a `None` selection or coercion failure yields
an absent score.  Zero and absence remain distinguishable, but only through
the `votes` fallback: `votes = 0` gives a present `0`, while `votesCount = 0`
alone gives absence. -/
theorem extract_votes_amended_resolution :
    (∀ fields, extract_votes fields = votesResolutionSpec fields)
  ∧ extract_votes [("votes", PyVal.int 0)] = some 0
  ∧ extract_votes [("votesCount", PyVal.int 0), ("votes", PyVal.int 0)] = some 0
  ∧ extract_votes [] = Option.none
  ∧ extract_votes [("votesCount", PyVal.str "x")] = Option.none
  ∧ extract_votes [("votesCount", PyVal.dict [("count", PyVal.int 7)])] = some 7 := by
  refine ⟨fun fields => ?_, by decide, by decide, by decide, by decide, by decide⟩
  unfold extract_votes votesResolutionSpec pyOr
  rfl

/-- C3: the payload locator fails with `PayloadNotFound` exactly when the
opening marker is absent, with `MalformedPayload` exactly when the closing
marker does not occur after the opening marker, with `PayloadDecodeError`
exactly when the delimited, unescaped text does not decode, and otherwise
returns the decoded structure.  It is a function of the markup text alone
(the model is pure by construction, and `unescape`/`decode` are the
standard-library collaborators). -/
theorem extract_next_data_error_characterization
    (unescape : List Char → List Char) (decode : List Char → Option PyVal)
    (page : List Char) :
    (extract_next_data unescape decode page = .error .payloadNotFound
        ↔ pyFind page NEXT_DATA_START 0 = Option.none)
  ∧ (extract_next_data unescape decode page = .error .malformedPayload
        ↔ ∃ i, pyFind page NEXT_DATA_START 0 = some i
            ∧ pyFind page NEXT_DATA_END (i + NEXT_DATA_START.length) = Option.none)
  ∧ (extract_next_data unescape decode page = .error .payloadDecodeError
        ↔ ∃ i j, pyFind page NEXT_DATA_START 0 = some i
            ∧ pyFind page NEXT_DATA_END (i + NEXT_DATA_START.length) = some j
            ∧ decode (unescape ((page.drop (i + NEXT_DATA_START.length)).take
                (j - (i + NEXT_DATA_START.length)))) = Option.none)
  ∧ (∀ payload, extract_next_data unescape decode page = .ok payload
        ↔ ∃ i j, pyFind page NEXT_DATA_START 0 = some i
            ∧ pyFind page NEXT_DATA_END (i + NEXT_DATA_START.length) = some j
            ∧ decode (unescape ((page.drop (i + NEXT_DATA_START.length)).take
                (j - (i + NEXT_DATA_START.length)))) = some payload) := by
  unfold extract_next_data
  cases h1 : pyFind page NEXT_DATA_START 0 with
  | none => simp [h1]
  | some i =>
    cases h2 : pyFind page NEXT_DATA_END (i + NEXT_DATA_START.length) with
    | none => simp [h2]
    | some j =>
      cases h3 : decode (unescape ((page.drop (i + NEXT_DATA_START.length)).take
          (j - (i + NEXT_DATA_START.length)))) with
      | none => simp [h2, h3]
      | some payload => simp [h2, h3]

/-- C7: whenever the payload decodes but the traversal accepts zero
candidates, a positive-limit scrape fails with the no-listings error instead
of returning an empty sequence. -/
theorem scrape_no_listings_error
    (unescape : List Char → List Char) (decode : List Char → Option PyVal)
    (limit : Int) (page : List Char) (fetched : Except ScrapeError (List Char))
    (payload : PyVal)
    (hlim : 1 ≤ limit)
    (hx : extract_next_data unescape decode page = .ok payload)
    (hempty : extract_tools payload = []) :
    scrape_top_ai_tools unescape decode limit (some page) fetched
      = .error .noListingsFound := by
  unfold scrape_top_ai_tools
  have hl : ¬ limit ≤ 0 := by omega
  simp [hl, hx, hempty]

theorem scrape_no_listings_error_witness :
    (1 : Int) ≤ 5
      ∧ extract_next_data id emptyDecode samplePage = .ok (PyVal.dict [])
      ∧ extract_tools (PyVal.dict []) = []
      ∧ scrape_top_ai_tools id emptyDecode 5 (some samplePage)
          (Except.error .transportFailure) = .error .noListingsFound :=
  ⟨by decide, by decide, by rw [extract_tools_eval]; decide,
   scrape_no_listings_error id emptyDecode 5 samplePage
     (Except.error .transportFailure) (PyVal.dict [])
     (by decide) (by decide) (by rw [extract_tools_eval]; decide)⟩

theorem dedupGo_eq (l : List String) : ∀ (seen res : List String),
    dedupGo seen res l
      = res ++ firstSeen (l.filter (fun x => !x.isEmpty && !decide (x ∈ seen))) := by
  induction l with
  | nil => intro seen res; simp [dedupGo, firstSeen]
  | cons item rest ih =>
    intro seen res
    by_cases he : item.isEmpty
    · simp [dedupGo, he, ih, List.filter_cons]
    · by_cases hs : item ∈ seen
      · simp [dedupGo, he, hs, ih, List.filter_cons]
      · have hfil :
            rest.filter (fun x => !x.isEmpty && !decide (x ∈ item :: seen))
              = (rest.filter (fun x => !x.isEmpty && !decide (x ∈ seen))).filter
                  (· != item) := by
          rw [List.filter_filter]
          apply List.filter_congr
          intro x _
          by_cases h1 : x = item <;> by_cases h2 : x ∈ seen <;>
            simp [h1, h2, List.mem_cons]
        rw [dedupGo, if_neg he, if_neg hs, ih, hfil, List.filter_cons]
        simp [he, hs, firstSeen]

theorem mem_firstSeen : ∀ (l : List String) (a : String), a ∈ firstSeen l → a ∈ l := by
  intro l
  induction l using firstSeen.induct with
  | case1 => simp [firstSeen]
  | case2 x xs ih =>
    intro a ha
    rw [firstSeen] at ha
    rcases List.mem_cons.mp ha with h | h
    · simp [h]
    · have h1 := ih a h
      have h2 := List.mem_of_mem_filter h1
      simp [h2]

theorem firstSeen_nodup : ∀ (l : List String), (firstSeen l).Nodup := by
  intro l
  induction l using firstSeen.induct with
  | case1 => simp [firstSeen]
  | case2 x xs ih =>
    rw [firstSeen]
    refine List.nodup_cons.mpr ⟨?_, ih⟩
    intro hx
    have := mem_firstSeen _ _ hx
    rcases List.mem_filter.mp this with ⟨_, hne⟩
    simp at hne

/-- C8: for every node, the makers list contains no empty strings, no
duplicates, and equals the distinct non-empty raw names (collected across all
candidate maker fields combined, in field order) in order of first
occurrence. -/
theorem extract_maker_names_clean (fields : List (String × PyVal)) :
    (∀ s ∈ extract_maker_names fields, s ≠ "")
  ∧ (extract_maker_names fields).Nodup
  ∧ extract_maker_names fields
      = firstSeen
          (((makerCandidateKeys.map (fun k =>
              if hasKey fields k then normalise_people (pyGet fields k)
              else [])).flatten).filter (fun s => !s.isEmpty)) := by
  have hdd : ∀ raw : List String,
      deduplicate raw = firstSeen (raw.filter (fun s => !s.isEmpty)) := by
    intro raw
    rw [deduplicate, dedupGo_eq]
    simp
  have hmain : extract_maker_names fields
      = firstSeen
          (((makerCandidateKeys.map (fun k =>
              if hasKey fields k then normalise_people (pyGet fields k)
              else [])).flatten).filter (fun s => !s.isEmpty)) := by
    rw [extract_maker_names, hdd]
  refine ⟨?_, ?_, hmain⟩
  · intro s hs
    rw [hmain] at hs
    have := mem_firstSeen _ _ hs
    rcases List.mem_filter.mp this with ⟨_, hne⟩
    intro hcontra
    rw [hcontra] at hne
    exact absurd hne (by decide)
  · rw [hmain]
    exact firstSeen_nodup _

theorem build_tool_some (fields : List (String × PyVal)) (slug : PyVal)
    (name : String) : ∃ t, build_tool fields slug name = some t :=
  ⟨_, rfl⟩

/-- C6: a traversed dict whose slug is not yet seen is accepted (its built
tool is appended with the next discovery index and its slug recorded) exactly
when its `__typename` is a string containing `Post` or `Product`, its slug is
truthy, and its name-or-title is truthy; otherwise the state is unchanged.
(The source also re-checks `isinstance(node, dict)` and a `None` result of
`_build_tool`; both are vacuous: the walker yields only dicts and
`_build_tool` returns a tool on every path, see `build_tool_some`.) -/
theorem extract_step_acceptance (st : ExtractState)
    (fields : List (String × PyVal))
    (hfresh : pyGet fields "slug" ∉ st.seen) :
    (listingAcceptB fields = true →
      ∃ tool, build_tool fields (pyGet fields "slug")
            (pyStr (pyOr (pyGet fields "name") (pyGet fields "title"))) = some tool
        ∧ extract_step st (.dict fields)
          = { candidates := st.candidates
                ++ [(pyGet fields "slug", st.counter, tool)]
              seen := pyGet fields "slug" :: st.seen
              counter := st.counter + 1 })
  ∧ (listingAcceptB fields = false → extract_step st (.dict fields) = st) := by
  cases hty : pyGet fields "__typename"
  case str ty =>
    constructor
    · intro hacc
      simp only [listingAcceptB, hty, Bool.and_eq_true] at hacc
      obtain ⟨⟨hm, hslug⟩, hname⟩ := hacc
      have hm' : strContains ty "Post" = true ∨ strContains ty "Product" = true := by
        simpa using hm
      have hcond : (!strContains ty "Post" && !strContains ty "Product") = false := by
        rcases hm' with h | h <;> simp [h]
      refine ⟨_, rfl, ?_⟩
      simp [extract_step, hty, hcond, hslug, hname, hfresh, build_tool]
    · intro hacc
      by_cases hc : (strContains ty "Post" || strContains ty "Product") = true
      · have hc' : strContains ty "Post" = true ∨ strContains ty "Product" = true := by
          simpa using hc
        have hcond : (!strContains ty "Post" && !strContains ty "Product") = false := by
          rcases hc' with h | h <;> simp [h]
        by_cases hslug : truthy (pyGet fields "slug") = true
        · by_cases hname :
              truthy (pyOr (pyGet fields "name") (pyGet fields "title")) = true
          · simp [listingAcceptB, hty, hc, hslug, hname] at hacc
          · have hname' :
                truthy (pyOr (pyGet fields "name") (pyGet fields "title")) = false := by
              simpa using hname
            simp [extract_step, hty, hcond, hslug, hname']
        · have hslug' : truthy (pyGet fields "slug") = false := by simpa using hslug
          simp [extract_step, hty, hcond, hslug']
      · have hc' : strContains ty "Post" = false ∧ strContains ty "Product" = false := by
          constructor <;> by_contra hh <;>
            simp only [Bool.not_eq_false] at hh <;> simp [hh] at hc
        obtain ⟨ha, hb⟩ := hc'
        simp [extract_step, hty, ha, hb]
  all_goals
    exact ⟨fun hacc => absurd hacc (by simp [listingAcceptB, hty]),
           fun _ => by simp [extract_step, hty]⟩

theorem extract_step_acceptance_witness :
    pyGet samplePostA "slug" ∉ initExtractState.seen
  ∧ ((listingAcceptB samplePostA = true →
        ∃ tool, build_tool samplePostA (pyGet samplePostA "slug")
              (pyStr (pyOr (pyGet samplePostA "name")
                (pyGet samplePostA "title"))) = some tool
          ∧ extract_step initExtractState (.dict samplePostA)
            = { candidates := initExtractState.candidates
                  ++ [(pyGet samplePostA "slug", initExtractState.counter, tool)]
                seen := pyGet samplePostA "slug" :: initExtractState.seen
                counter := initExtractState.counter + 1 })
    ∧ (listingAcceptB samplePostA = false →
        extract_step initExtractState (.dict samplePostA) = initExtractState)) :=
  ⟨by decide,
   extract_step_acceptance initExtractState samplePostA (by decide)⟩

theorem extract_step_cases (st : ExtractState) (node : PyVal) :
    extract_step st node = st
  ∨ ∃ slug tool, slug ∉ st.seen
      ∧ extract_step st node
        = { candidates := st.candidates ++ [(slug, st.counter, tool)]
            seen := slug :: st.seen
            counter := st.counter + 1 } := by
  unfold extract_step
  dsimp only
  split
  · split
    · split
      · exact Or.inl rfl
      · split
        · exact Or.inl rfl
        · split
          · exact Or.inl rfl
          · rename_i hfresh
            split
            · rename_i tool ht
              exact Or.inr ⟨_, tool, hfresh, rfl⟩
            · exact Or.inl rfl
    · exact Or.inl rfl
  · exact Or.inl rfl

theorem stateInv_init : stateInv initExtractState := by
  refine ⟨rfl, rfl, ?_, ?_⟩ <;> simp [initExtractState]

theorem stateInv_step (st : ExtractState) (node : PyVal) (h : stateInv st) :
    stateInv (extract_step st node) := by
  rcases extract_step_cases st node with heq | ⟨slug, tool, hfresh, heq⟩
  · rw [heq]; exact h
  · rw [heq]
    obtain ⟨h1, h2, h3, h4⟩ := h
    refine ⟨?_, ?_, ?_, ?_⟩
    · simp [h1]
    · simp [h2, h1, List.range_succ]
    · intro c hc
      rcases List.mem_append.mp hc with hc | hc
      · exact List.mem_cons_of_mem _ (h3 c hc)
      · simp only [List.mem_singleton] at hc
        subst hc
        simp
    · rw [List.map_append]
      refine List.Nodup.append h4 (by simp) ?_
      intro a ha hb
      simp only [List.map_cons, List.map_nil, List.mem_singleton] at hb
      subst hb
      rcases List.mem_map.mp ha with ⟨c, hc, hfst⟩
      exact hfresh (hfst ▸ h3 c hc)

theorem stateInv_foldl (ns : List PyVal) (st : ExtractState) (h : stateInv st) :
    stateInv (ns.foldl extract_step st) := by
  induction ns generalizing st with
  | nil => exact h
  | cons n rest ih => exact ih _ (stateInv_step _ _ h)

theorem extract_tools_tagged_inv (payload : PyVal) :
    stateInv ((iter_nodes payload).foldl extract_step initExtractState) :=
  stateInv_foldl _ _ stateInv_init

theorem tagged_indices (payload : PyVal) :
    (extract_tools_tagged payload).map (fun c => c.2.1)
      = List.range (extract_tools_tagged payload).length := by
  obtain ⟨h1, h2, -, -⟩ := extract_tools_tagged_inv payload
  rw [extract_tools_tagged, h2, h1]

theorem tagged_slug_nodup (payload : PyVal) :
    ((extract_tools_tagged payload).map Prod.fst).Nodup :=
  (extract_tools_tagged_inv payload).2.2.2

theorem extract_tools_indices (payload : PyVal) :
    (extract_tools payload).map Prod.fst
      = List.range (extract_tools payload).length := by
  rw [extract_tools, List.map_map, List.length_map]
  exact tagged_indices payload

theorem pairwise_toolLt_of_sorted {l : List (Nat × AiTool)}
    (hs : List.Pairwise toolLe l) (hn : (l.map Prod.fst).Nodup) :
    List.Pairwise toolLt l := by
  have hne : List.Pairwise (fun p q : Nat × AiTool => p.1 ≠ q.1) l :=
    List.pairwise_map.mp hn
  refine (hs.and hne).imp ?_
  intro a b hab
  obtain ⟨hle, hne'⟩ := hab
  unfold toolLe at hle
  unfold toolLt
  rcases hle with h | ⟨h1, h2⟩
  · exact Or.inl h
  · exact Or.inr ⟨h1, lt_of_le_of_ne h2 hne'⟩

/-- C1: on markup whose decoded payload yields at least one accepted listing
and a positive limit, the scraper returns at most `limit` entries, pairwise
strictly ordered by descending votes (absent counted as 0) with ties broken
by ascending discovery order; the entries come from the discovery-indexed
candidate list, whose indices are exactly `0, 1, 2, …` in acceptance order. -/
theorem scrape_sorted_by_votes_then_discovery
    (unescape : List Char → List Char) (decode : List Char → Option PyVal)
    (limit : Int) (page : List Char) (fetched : Except ScrapeError (List Char))
    (payload : PyVal)
    (hlim : 1 ≤ limit)
    (hx : extract_next_data unescape decode page = .ok payload)
    (hne : extract_tools payload ≠ []) :
    ∃ pairs : List (Nat × AiTool),
      scrape_top_ai_tools unescape decode limit (some page) fetched
        = .ok (pairs.map Prod.snd)
      ∧ pairs.length ≤ limit.toNat
      ∧ List.Pairwise toolLt pairs
      ∧ (∀ p ∈ pairs, p ∈ extract_tools payload)
      ∧ (extract_tools payload).map Prod.fst
          = List.range (extract_tools payload).length := by
  refine ⟨((extract_tools payload).insertionSort toolLe).take limit.toNat,
    ?_, ?_, ?_, ?_, extract_tools_indices payload⟩
  · unfold scrape_top_ai_tools
    have hl : ¬ limit ≤ 0 := by omega
    simp [hl, hx, hne]
  · rw [List.length_take]
    exact min_le_left _ _
  · apply pairwise_toolLt_of_sorted
    · exact List.Pairwise.sublist (List.take_sublist _ _)
        (List.sorted_insertionSort toolLe _)
    · have h0 : ((extract_tools payload).map Prod.fst).Nodup := by
        rw [extract_tools_indices payload]
        exact List.nodup_range _
      have h1 : (((extract_tools payload).insertionSort toolLe).map Prod.fst).Nodup :=
        (((List.perm_insertionSort toolLe _).map Prod.fst).nodup_iff).mpr h0
      exact List.Nodup.sublist ((List.take_sublist _ _).map Prod.fst) h1
  · intro p hp
    exact (List.mem_insertionSort toolLe).mp (List.mem_of_mem_take hp)

theorem scrape_sorted_by_votes_then_discovery_witness :
    (1 : Int) ≤ 5
  ∧ extract_next_data id sampleDecode samplePage = .ok samplePayload
  ∧ extract_tools samplePayload ≠ []
  ∧ (∃ pairs : List (Nat × AiTool),
      scrape_top_ai_tools id sampleDecode 5 (some samplePage)
          (Except.error .transportFailure)
        = .ok (pairs.map Prod.snd)
      ∧ pairs.length ≤ (5 : Int).toNat
      ∧ List.Pairwise toolLt pairs
      ∧ (∀ p ∈ pairs, p ∈ extract_tools samplePayload)
      ∧ (extract_tools samplePayload).map Prod.fst
          = List.range (extract_tools samplePayload).length) :=
  ⟨by decide, by decide, by rw [extract_tools_eval]; decide,
   scrape_sorted_by_votes_then_discovery id sampleDecode 5 samplePage
     (Except.error .transportFailure) samplePayload (by decide) (by decide)
     (by rw [extract_tools_eval]; decide)⟩

/-- `scrape_top_ai_tools` with the traversal in its kernel-evaluable form;
used to discharge hypotheses of concrete witnesses. -/
theorem scrape_eval (unescape : List Char → List Char)
    (decode : List Char → Option PyVal) (limit : Int) (page : List Char)
    (fetched : Except ScrapeError (List Char)) :
    scrape_top_ai_tools unescape decode limit (some page) fetched
      = (if limit ≤ 0 then .ok []
         else
           match extract_next_data unescape decode page with
           | .error e => .error e
           | .ok payload =>
             let indexed :=
               ((nodesOf payload).foldl extract_step initExtractState).candidates.map
                 Prod.snd
             if indexed = [] then .error .noListingsFound
             else .ok (((indexed.insertionSort toolLe).take limit.toNat).map Prod.snd)) := by
  simp only [scrape_top_ai_tools, extract_tools_eval]

/-- C5: every successfully returned sequence is the image of a slug-tagged
candidate list whose slugs are pairwise distinct (so no two returned entries
share an identifier), and a traversed node whose slug was already seen leaves
the extraction state unchanged — the first accepted occurrence wins and later
duplicates are silently discarded. -/
theorem scrape_identifier_uniqueness
    (unescape : List Char → List Char) (decode : List Char → Option PyVal)
    (limit : Int) (page : List Char) (fetched : Except ScrapeError (List Char))
    (res : List AiTool)
    (hlim : 1 ≤ limit)
    (hok : scrape_top_ai_tools unescape decode limit (some page) fetched = .ok res) :
    (∃ payload,
      extract_next_data unescape decode page = .ok payload
      ∧ res = (((extract_tools_tagged payload).insertionSort tagLe).take
            limit.toNat).map (fun c => c.2.2)
      ∧ ((((extract_tools_tagged payload).insertionSort tagLe).take
            limit.toNat).map Prod.fst).Nodup)
  ∧ (∀ (st : ExtractState) (fields : List (String × PyVal)),
      pyGet fields "slug" ∈ st.seen → extract_step st (.dict fields) = st) := by
  have hl : ¬ limit ≤ 0 := by omega
  constructor
  · cases hx : extract_next_data unescape decode page with
    | error e =>
      exfalso
      simp [scrape_top_ai_tools, hl, hx] at hok
    | ok payload =>
      by_cases hne : extract_tools payload = []
      · exfalso
        simp [scrape_top_ai_tools, hl, hx, hne] at hok
      · simp [scrape_top_ai_tools, hl, hx, hne] at hok
        refine ⟨payload, rfl, ?_, ?_⟩
        · rw [← hok]
          have hmap : ((extract_tools_tagged payload).insertionSort tagLe).map Prod.snd
              = (extract_tools payload).insertionSort toolLe := by
            rw [List.map_insertionSort tagLe toolLe Prod.snd _ (fun a _ b _ => Iff.rfl)]
            rfl
          rw [← hmap]
          simp [← List.map_take, List.map_map, Function.comp]
        · have h0 := tagged_slug_nodup payload
          have h1 : (((extract_tools_tagged payload).insertionSort tagLe).map
              Prod.fst).Nodup :=
            (((List.perm_insertionSort tagLe _).map Prod.fst).nodup_iff).mpr h0
          exact List.Nodup.sublist ((List.take_sublist _ _).map Prod.fst) h1
  · intro st fields hseen
    cases hty : pyGet fields "__typename" <;>
      simp [extract_step, hty, hseen, ite_self]

theorem scrape_identifier_uniqueness_witness :
    (1 : Int) ≤ 5
  ∧ scrape_top_ai_tools id sampleDecode 5 (some samplePage)
      (Except.error .transportFailure) = .ok sampleScrapeResult
  ∧ ((∃ payload,
        extract_next_data id sampleDecode samplePage = .ok payload
        ∧ sampleScrapeResult
          = (((extract_tools_tagged payload).insertionSort tagLe).take
              (5 : Int).toNat).map (fun c => c.2.2)
        ∧ ((((extract_tools_tagged payload).insertionSort tagLe).take
              (5 : Int).toNat).map Prod.fst).Nodup)
    ∧ (∀ (st : ExtractState) (fields : List (String × PyVal)),
        pyGet fields "slug" ∈ st.seen → extract_step st (.dict fields) = st)) :=
  ⟨by decide, by rw [scrape_eval]; decide,
   scrape_identifier_uniqueness id sampleDecode 5 samplePage
     (Except.error .transportFailure) sampleScrapeResult (by decide)
     (by rw [scrape_eval]; decide)⟩
